import Mathlib

/-!
Verification development for the orbitd container-update daemon.

The embedding follows the repository's Go sources:
  - internal/updater/policy.go   (update policies, semver resolution)
  - internal/updater/updater.go  (per-container update cycle, replacement)
  - internal/config/config.go    (runtime configuration)

The semantic-version arithmetic is the behaviour of the Masterminds/semver v3
library that policy.go drives (version parsing, comparison, and the tilde,
caret and greater-than constraints produced by buildConstraint).  External
effects (container engine, image registry) are supplied as explicit oracle
values: each oracle field is the result one engine or registry call would
return at the point the Go code makes it.
-/

namespace Orbitd

/-! ## Update policies (policy.go)

In Go, `UpdatePolicy` is a string type; `UpdatePolicy(p)` is a plain cast, so
any string is a value of the type and only `IsValid` distinguishes the four
known policies. -/

abbrev UpdatePolicy := String

def PolicyDigest : UpdatePolicy := "digest"

def PolicyPatch : UpdatePolicy := "patch"

def PolicyMinor : UpdatePolicy := "minor"

def PolicyMajor : UpdatePolicy := "major"

/-- UpdatePolicy.IsValid (policy.go): the four recognised policy strings. -/
def UpdatePolicy.IsValid (p : UpdatePolicy) : Bool :=
  p == PolicyDigest || p == PolicyPatch || p == PolicyMinor || p == PolicyMajor

/-! ## String helpers, at the character level

Go's strings.Split, strings.TrimPrefix and lexicographic byte comparison,
embedded over the decoded character lists (the characters the code feeds
them are ASCII, where byte order and codepoint order agree). -/

/-- Go strings.Split with a one-character separator. -/
def goSplit (sep : Char) : List Char → List (List Char)
  | [] => [[]]
  | c :: rest =>
    if c = sep then [] :: goSplit sep rest
    else
      match goSplit sep rest with
      | h :: t => (c :: h) :: t
      | [] => [[c]]

/-- Join with a one-character separator (inverse of goSplit on its image). -/
def joinSep (sep : Char) : List (List Char) → List Char
  | [] => []
  | [x] => x
  | x :: xs => x ++ sep :: joinSep sep xs

/-- Go bytewise string comparison. -/
def charsCmp : List Char → List Char → Ordering
  | [], [] => .eq
  | [], _ :: _ => .lt
  | _ :: _, [] => .gt
  | a :: as, b :: bs =>
    if a.toNat < b.toNat then .lt
    else if b.toNat < a.toNat then .gt
    else charsCmp as bs

/-! ## Semantic versions (Masterminds/semver v3)

`Version` stores major/minor/patch as unsigned 64-bit integers plus the raw
prerelease and build-metadata strings.  We keep the numbers as `Nat`; the
parser rejects numerals outside the 64-bit range exactly where
`strconv.ParseUint` would fail. -/

structure SemVer where
  major : Nat
  minor : Nat
  patch : Nat
  pre : String
  metadata : String
deriving DecidableEq, Repr

/-- compareSegment of Masterminds/semver, returning an `Ordering` for -1/0/1. -/
def segCmp (a b : Nat) : Ordering :=
  if a < b then .lt else if b < a then .gt else .eq

/-- Value of a list of decimal digit characters. -/
def digitsToNat (cs : List Char) : Nat :=
  cs.foldl (fun n c => n * 10 + (c.toNat - 48)) 0

/-- Go strconv.ParseInt with base 10 and bitSize 64, as comparePrePart calls
it on a prerelease identifier: an optional sign, then decimal digits; a
syntax error or 64-bit overflow is a parse failure. -/
def parseGoInt64 (cs : List Char) : Option Int :=
  let (neg, ds) :=
    match cs with
    | '-' :: rest => (true, rest)
    | '+' :: rest => (false, rest)
    | cs => (false, cs)
  if ds.isEmpty || !ds.all Char.isDigit then none
  else
    let n := digitsToNat ds
    if neg then
      if n ≤ 2 ^ 63 then some (-(n : Int)) else none
    else
      if n < 2 ^ 63 then some (n : Int) else none

/-- comparePrePart of Masterminds/semver: prerelease identifiers compare
numerically when both parse as integers, a number is below a non-number,
non-numbers compare as strings, and the empty padding identifier is below
everything else. -/
def partCmp (s o : List Char) : Ordering :=
  if s = o then .eq
  else if s = [] then .lt
  else if o = [] then .gt
  else
    match parseGoInt64 s, parseGoInt64 o with
    | none, none => if charsCmp s o = .gt then .gt else .lt
    | some _, none => .lt
    | none, some _ => .gt
    | some si, some oi => if oi < si then .gt else .lt

/-- The tail of comparePrerelease's loop once the left list is exhausted:
the remaining right identifiers are each compared against the empty padding
identifier. -/
def partsCmpNil : List (List Char) → Ordering
  | [] => .eq
  | o :: os =>
    match partCmp [] o with
    | .eq => partsCmpNil os
    | r => r

/-- The loop of comparePrerelease: identifiers compared pairwise, the shorter
list padded with empty identifiers. -/
def partsCmp : List (List Char) → List (List Char) → Ordering
  | [], y => partsCmpNil y
  | s :: ss, [] =>
    match partCmp s [] with
    | .eq => partsCmp ss []
    | r => r
  | s :: ss, o :: os =>
    match partCmp s o with
    | .eq => partsCmp ss os
    | r => r

/-- The prerelease steps of Version.Compare: a release outranks any
prerelease, two prereleases compare identifier by identifier. -/
def preCmp (ps po : String) : Ordering :=
  if ps = "" && po = "" then .eq
  else if ps = "" then .gt
  else if po = "" then .lt
  else partsCmp (goSplit '.' ps.data) (goSplit '.' po.data)

/-- Version.Compare of Masterminds/semver: major, minor, patch, then
prerelease precedence; build metadata is ignored. -/
def semverCompare (v o : SemVer) : Ordering :=
  match segCmp v.major o.major with
  | .eq =>
    match segCmp v.minor o.minor with
    | .eq =>
      match segCmp v.patch o.patch with
      | .eq => preCmp v.pre o.pre
      | r => r
    | r => r
  | r => r

/-! ### Parsing (Masterminds/semver NewVersion)

NewVersion matches the anchored lenient pattern
`v?([0-9]+)(\.[0-9]+)?(\.[0-9]+)?(-ident(.ident)*)?(+ident(.ident)*)?`
where an identifier is a nonempty run over [0-9A-Za-z-], and reads each
numeric group with strconv.ParseUint (so a group at or above 2^64 fails). -/

/-- A prerelease or build-metadata identifier character: [0-9A-Za-z-]. -/
def isIdentChar (c : Char) : Bool :=
  c.isDigit || c.isAlpha || c == '-'

/-- Dot-separated nonempty identifiers over [0-9A-Za-z-]. -/
def validDotted (cs : List Char) : Bool :=
  (goSplit '.' cs).all fun part => !part.isEmpty && part.all isIdentChar

/-- Longest digit prefix and the remainder. -/
def spanDigits : List Char → List Char × List Char
  | [] => ([], [])
  | c :: cs =>
    if c.isDigit then
      let (d, r) := spanDigits cs
      (c :: d, r)
    else ([], c :: cs)

/-- A numeric group: nonempty digits whose value fits strconv.ParseUint's
64-bit range. -/
def parseNumGroup (cs : List Char) : Option Nat :=
  if cs.isEmpty then none
  else
    let n := digitsToNat cs
    if n < 2 ^ 64 then some n else none

/-- The optional `-prerelease` and `+metadata` suffixes after the numeric
core; the prerelease stops at the first '+' (identifier characters exclude
'+' and the regex groups are greedy). -/
def parseSuffixes (rest : List Char) : Option (String × String) :=
  match rest with
  | [] => some ("", "")
  | '+' :: m =>
    if validDotted m then some ("", String.mk m) else none
  | '-' :: r =>
    let preCs := r.takeWhile (· ≠ '+')
    let rest2 := r.dropWhile (· ≠ '+')
    if !validDotted preCs then none
    else
      match rest2 with
      | [] => some (String.mk preCs, "")
      | '+' :: m =>
        if validDotted m then some (String.mk preCs, String.mk m) else none
      | _ => none
  | _ => none

/-- Masterminds/semver NewVersion: `none` exactly when the Go call errors.
A missing minor or patch group defaults to 0. -/
def parseSemver (s : String) : Option SemVer := do
  let cs :=
    match s.data with
    | 'v' :: rest => rest
    | cs => cs
  let (d1, r1) := spanDigits cs
  let major ← parseNumGroup d1
  match r1 with
  | '.' :: r =>
    let (d2, r2) := spanDigits r
    let minor ← parseNumGroup d2
    match r2 with
    | '.' :: r3 =>
      let (d3, r4) := spanDigits r3
      let patch ← parseNumGroup d3
      let (pre, md) ← parseSuffixes r4
      pure ⟨major, minor, patch, pre, md⟩
    | rest =>
      let (pre, md) ← parseSuffixes rest
      pure ⟨major, minor, 0, pre, md⟩
  | rest =>
    let (pre, md) ← parseSuffixes rest
    pure ⟨major, 0, 0, pre, md⟩

/-! ### Constraints (Masterminds/semver v3 Constraints.Check)

buildConstraint (policy.go) produces the strings "~cur, > cur" (patch),
"^cur, > cur" (minor) and "> cur" (major and the default branch), where cur
is current.String(); NewConstraint parses the comma-separated parts into a
conjunction and re-reads cur into the same version value.  The three
operator checks below are constraintTilde, constraintCaret and
constraintGreaterThan applied to such a fully specified (non-wildcard)
constraint version. -/

/-- constraintGreaterThan: a prerelease version never matches a constraint
whose version has no prerelease; otherwise strict comparison. -/
def cGreaterThan (con v : SemVer) : Bool :=
  if v.pre ≠ "" && con.pre = "" then false
  else semverCompare v con == Ordering.gt

/-- constraintTilde: at least the constraint version, same major and minor,
with ~0.0.0 accepting everything not below it. -/
def cTilde (con v : SemVer) : Bool :=
  if v.pre ≠ "" && con.pre = "" then false
  else if semverCompare v con == Ordering.lt then false
  else if con.major == 0 && con.minor == 0 && con.patch == 0 then true
  else v.major == con.major && v.minor == con.minor

/-- constraintCaret: at least the constraint version and within the caret
range, which pins the major when it is positive, the minor when the major is
0, and the patch when major and minor are both 0. -/
def cCaret (con v : SemVer) : Bool :=
  if v.pre ≠ "" && con.pre = "" then false
  else if semverCompare v con == Ordering.lt then false
  else if con.major > 0 then v.major == con.major
  else if con.minor > 0 then v.major == 0 && v.minor == con.minor
  else v.major == 0 && v.minor == 0 && v.patch == con.patch

/-- buildConstraint (policy.go) followed by Constraints.Check: the
comma-separated constraint parts are a conjunction. -/
def checkConstraint (current : SemVer) (policy : UpdatePolicy) (v : SemVer) : Bool :=
  if policy == PolicyPatch then cTilde current v && cGreaterThan current v
  else if policy == PolicyMinor then cCaret current v && cGreaterThan current v
  else cGreaterThan current v

/-- The caret range as the Masterminds/semver documentation states it, used
to phrase the resolver claims: ^M.m.p pins the major when M > 0, the minor
when M = 0 < m, and the patch when M and m are both 0. -/
def caretRange (cur v : SemVer) : Prop :=
  if cur.major > 0 then v.major = cur.major
  else if cur.minor > 0 then v.major = 0 ∧ v.minor = cur.minor
  else v.major = 0 ∧ v.minor = 0 ∧ v.patch = cur.patch

/-! ## The version resolver (policy.go findBestVersion) -/

/-- One iteration of the findBestVersion loop: tags that fail to parse or
fail the constraint are skipped; a kept version replaces the best so far
only when strictly greater (v.GreaterThan(best)). -/
def bestStep (current : SemVer) (policy : UpdatePolicy)
    (acc : Option SemVer × String) (tag : String) : Option SemVer × String :=
  match parseSemver tag with
  | none => acc
  | some v =>
    if !checkConstraint current policy v then acc
    else
      match acc.1 with
      | none => (some v, tag)
      | some best => if semverCompare v best == Ordering.gt then (some v, tag) else acc

/-- findBestVersion (policy.go).  The Go function returns `repo + ":" + pullTag`
for the best matching tag and the empty string when nothing matched (its
error branch is buildConstraint failing, which cannot happen for the
well-formed constraint strings buildConstraint emits). -/
def findBestVersion (repo : String) (tags : List String) (current : SemVer)
    (policy : UpdatePolicy) : String :=
  match tags.foldl (bestStep current policy) (none, "") with
  | (none, _) => ""
  | (some _, pullTag) => repo ++ ":" ++ pullTag

/-! ## Image reference parsing (policy.go parseImage)

parseImage delegates to go-containerregistry's name.ParseReference with weak
validation.  A reference containing "@" only parses through name.NewDigest
(no "@" character is legal in a tag reference): it must have exactly one "@"
and the part after it must be a valid canonical digest — "sha256:" followed
by exactly 64 lowercase hexadecimal characters — which NewDigest checks
unconditionally, weak validation or not; a reference that fails this is a
parse error.  A valid digest reference reports no tag (the name.Tag type
assertion in parseImage fails).  Otherwise the tag is what follows the last
":" that comes after the last "/", defaulting to "latest" when absent.
Registry normalization and validation of the repository part are not
modelled (the repository string is kept as written), and for tag references
parse failure is modelled only for the empty reference. -/

/-- A lowercase hexadecimal character, [0-9a-f]. -/
def isLowerHexChar (c : Char) : Bool :=
  c.isDigit || (97 ≤ c.toNat && c.toNat ≤ 102)

/-- The canonical digest validation name.NewDigest performs: "sha256:"
followed by exactly 64 lowercase hexadecimal characters. -/
def validSha256Digest (cs : List Char) : Bool :=
  "sha256:".data.isPrefixOf cs &&
    ((cs.drop 7).length == 64 && (cs.drop 7).all isLowerHexChar)

def parseImage (image : String) : Option (String × String) :=
  if image = "" then none
  else
    match goSplit '@' image.data with
    | [repoPart, digestPart] =>
      if validSha256Digest digestPart then some (String.mk repoPart, "") else none
    | _ :: _ :: _ => none
    | _ =>
      match goSplit ':' image.data with
      | [] => some (image, "latest")
      | [_] => some (image, "latest")
      | segs =>
        let tag := segs.getLastD []
        if tag.contains '/' then some (image, "latest")
        else some (String.mk (joinSep ':' segs.dropLast), String.mk tag)

/-- FindUpdateTarget (policy.go).  The crane.ListTags registry call is an
external effect and is supplied as `registryTags`; `none` models a listing
error.  `Except.error` covers the two error returns (reference parse failure
and registry failure); every fall-back branch returns the current image
unchanged, and a findBestVersion miss surfaces as `.ok ""`. -/
def findUpdateTarget (currentImage : String) (policy : UpdatePolicy)
    (registryTags : Option (List String)) : Except Unit String :=
  if !policy.IsValid || policy == PolicyDigest then .ok currentImage
  else
    match parseImage currentImage with
    | none => .error ()
    | some (repo, tag) =>
      if tag = "" then .ok currentImage
      else
        match parseSemver tag with
        | none => .ok currentImage
        | some currentVer =>
          match registryTags with
          | none => .error ()
          | some tags => .ok (findBestVersion repo tags currentVer policy)

/-! ## The per-container update step (updater.go updateContainer) -/

/-- The fields of a docker container Summary that updater.go reads. -/
structure Summary where
  id : String
  image : String
  imageID : String
  labels : List (String × String)
  names : List String
deriving DecidableEq, Repr

/-- Label lookup, modelling a Go map read (map keys are unique). -/
def lookupLabel (labels : List (String × String)) (k : String) : Option String :=
  (labels.find? fun kv => kv.1 == k).map Prod.snd

/-- getPolicy (updater.go): the orbitd.policy label value verbatim when the
label is present (the Go code casts the string with no validation), else the
configured global policy string. -/
def getPolicy (labels : List (String × String)) (cfgPolicy : String) : UpdatePolicy :=
  match lookupLabel labels "orbitd.policy" with
  | some p => p
  | none => cfgPolicy

/-- Results of the external calls updateContainer makes, in program order.
`digestBefore`/`digestAfter` are the two getImageDigest calls around the
pull; `none` is the call erroring (for the first call the error is discarded
and the digest treated as ""). -/
structure UpdateOracle where
  registryTags : Option (List String)
  digestBefore : Option String
  pullOk : Bool
  isSelf : Bool
  digestAfter : Option String
deriving Repr

/-- How one updateContainer invocation ends.  Every constructor except
`recreate` returns before recreateContainer runs, so the engine's container
state is untouched; the constructors before `skippedPullFailed` return before
the image pull as well. -/
inductive UpdateOutcome
  | skippedUntaggedDigest
  | skippedTargetError
  | skippedNoUpdate
  | skippedPullFailed
  | skippedSelf
  | skippedDigestError
  | skippedUpToDate
  | recreate (targetImage : String)
deriving DecidableEq, Repr

/-- updateContainer from the image pull on: the before digest (error
discarded, yielding ""), the pull, the self-update check, the after digest,
and the up-to-date comparison guarding recreateContainer. -/
def pullStep (targetImage : String) (c : Summary) (o : UpdateOracle) : UpdateOutcome :=
  if !o.pullOk then .skippedPullFailed
  else if o.isSelf then .skippedSelf
  else
    match o.digestAfter with
    | none => .skippedDigestError
    | some newDigest =>
      if targetImage = c.image ∧ o.digestBefore.getD "" ≠ "" ∧
          o.digestBefore.getD "" = newDigest then
        .skippedUpToDate
      else .recreate targetImage

/-- updateContainer (updater.go): the untagged-digest guard, policy
resolution, the semver target search for non-digest policies, then
`pullStep`.  When FindUpdateTarget returns a target it is the image pulled
(`targetImage` starts as c.Image and the branch assigning `target` leaves it
unchanged exactly when they are equal). -/
def updateContainer (cfgPolicy : String) (c : Summary) (o : UpdateOracle) : UpdateOutcome :=
  if "sha256:".data.isPrefixOf c.image.data then .skippedUntaggedDigest
  else if getPolicy c.labels cfgPolicy ≠ PolicyDigest then
    match findUpdateTarget c.image (getPolicy c.labels cfgPolicy) o.registryTags with
    | .error _ => .skippedTargetError
    | .ok target =>
      if target = "" then .skippedNoUpdate
      else pullStep target c o
  else pullStep c.image c o

/-! ## Container replacement (updater.go recreateContainer)

Two views of recreateContainer are embedded.  `recreatedContainer` is the
container.Run call on the success path: what configuration the replacement
container is created with.  `recreateTx` is the control flow: which engine
operations run, in what order, and in which terminal state the transaction
ends, as a function of each operation's success. -/

/-- The dockercontainer.Config fields the claims name; the Go code copies the
whole struct (`*config = *ins.Container.Config`) and then overwrites Image. -/
structure ContainerConfig where
  image : String
  env : List String
  cmd : List String
  entrypoint : List String
  labels : List (String × String)
deriving DecidableEq, Repr

/-- The dockercontainer.HostConfig fields the claims name; the Go code copies
the whole struct (`*hostConfig = *ins.Container.HostConfig`). -/
structure HostConfig where
  binds : List String
  mounts : List String
  restartPolicy : String
  capAdd : List String
  capDrop : List String
deriving DecidableEq, Repr

/-- What recreateContainer reads from ContainerInspect: the stored name (with
its leading "/"), the configuration, and the per-network endpoint settings. -/
structure InspectResult (ε : Type) where
  name : String
  config : ContainerConfig
  hostConfig : HostConfig
  networks : List (String × ε)
deriving Repr

/-- Setting one key of a Go map, modelled on an association list with unique
keys: replace the entry when the key is present, append otherwise. -/
def setKey {ε : Type} : List (String × ε) → String → ε → List (String × ε)
  | [], k, v => [(k, v)]
  | (k0, v0) :: rest, k, v =>
    if k0 = k then (k, v) :: rest else (k0, v0) :: setKey rest k v

/-- maps.Copy(dst, src): every key of src written into dst in order. -/
def mapsCopy {ε : Type} (dst src : List (String × ε)) : List (String × ε) :=
  src.foldl (fun d kv => setKey d kv.1 kv.2) dst

/-- The container.Run call of recreateContainer: name
strings.TrimPrefix(ins.Container.Name, "/"), the old Config with only Image
replaced, the old HostConfig verbatim, and the old networks copied over the
endpoint-settings map container.Run starts from (`defaults`). -/
structure CreatedContainer (ε : Type) where
  name : String
  config : ContainerConfig
  hostConfig : HostConfig
  endpoints : List (String × ε)
deriving Repr

def trimSlash (s : String) : String :=
  match s.data with
  | '/' :: rest => String.mk rest
  | _ => s

def recreatedContainer {ε : Type} (ins : InspectResult ε) (imageName : String)
    (defaults : List (String × ε)) : CreatedContainer ε :=
  { name := trimSlash ins.name
    config := { ins.config with image := imageName }
    hostConfig := ins.hostConfig
    endpoints := mapsCopy defaults ins.networks }

/-- Success or failure of each engine call recreateContainer can make, in
program order. -/
structure TxOracle where
  fromIDOk : Bool
  inspectOk : Bool
  running : Bool
  stopOk : Bool
  renameOk : Bool
  restartAfterRenameFailOk : Bool
  runOk : Bool
  renameBackOk : Bool
  rollbackStartOk : Bool
  terminateOk : Bool
deriving Repr

/-- Where recreateContainer returns. -/
inductive TxPhase
  | abortedBeforeStop
  | notRunning
  | stopFailed
  | renameFailedRestored
  | renameFailedStopped
  | committed
  | rolledBack
  | down
deriving DecidableEq, Repr

/-- The engine's view of the swapped container when recreateContainer
returns: under which name the old container exists (none once removed),
whether it is running, and whether the replacement container is running
under the original name. -/
structure EngineView where
  oldName : Option String
  oldRunning : Bool
  newRunning : Bool
deriving DecidableEq, Repr

/-- recreateContainer (updater.go) as a state machine over the engine calls:
stop, rename to name-orbitd-old, container.Run with the new image, and on Run
failure the rollback (rename back, restart); on success the old container is
removed. -/
def recreateTx (name : String) (o : TxOracle) : TxPhase × EngineView :=
  let backupName := name ++ "-orbitd-old"
  if !o.fromIDOk || !o.inspectOk then
    (.abortedBeforeStop, ⟨some name, o.running, false⟩)
  else if !o.running then (.notRunning, ⟨some name, false, false⟩)
  else if !o.stopOk then (.stopFailed, ⟨some name, true, false⟩)
  else if !o.renameOk then
    if o.restartAfterRenameFailOk then (.renameFailedRestored, ⟨some name, true, false⟩)
    else (.renameFailedStopped, ⟨some name, false, false⟩)
  else if o.runOk then
    (.committed, ⟨if o.terminateOk then none else some backupName, false, true⟩)
  else if !o.renameBackOk then (.down, ⟨some backupName, false, false⟩)
  else if !o.rollbackStartOk then (.down, ⟨some name, false, false⟩)
  else (.rolledBack, ⟨some name, true, false⟩)

/-! ## The cycle loop (updater.go RunOnce) -/

/-- The name extraction of RunOnce, `strings.Split(c.Names[0], "/")[1]`, made
total: `none` marks an index panic (no first name, or no second split part). -/
def containerNameOf (names : List String) : Option String :=
  match names with
  | [] => none
  | n :: _ =>
    match goSplit '/' n.data with
    | _ :: second :: _ => some (String.mk second)
    | _ => none

/-- The only per-container filter of the RunOnce loop: a container is passed
to updateContainer unless its orbitd.enable label is the string "false".
RunOnce consults nothing else before processing a container. -/
def runOnceProcesses (labels : List (String × String)) : Bool :=
  lookupLabel labels "orbitd.enable" ≠ some "false"

/-- The Config struct of internal/config/config.go: the configuration the
updater receives.  It has no require-label field, and RunOnce reads none. -/
structure Config where
  policy : String
  intervalNs : Nat
  cleanup : Bool
deriving Repr

/-! ## Helper lemmas -/

theorem goSplit_ne_nil (sep : Char) (cs : List Char) : goSplit sep cs ≠ [] := by
  induction cs with
  | nil => simp [goSplit]
  | cons c rest ih =>
    simp only [goSplit]
    split
    · simp
    · match h : goSplit sep rest with
      | [] => simp
      | h0 :: t => simp

theorem goSplit_cons_sep (sep : Char) (rest : List Char) :
    goSplit sep (sep :: rest) = [] :: goSplit sep rest := by
  simp [goSplit]

theorem goSplit_cons_ne (sep c : Char) (rest : List Char) (hc : c ≠ sep)
    (h0 : List Char) (t0 : List (List Char)) (hh : goSplit sep rest = h0 :: t0) :
    goSplit sep (c :: rest) = (c :: h0) :: t0 := by
  simp [goSplit, hc, hh]

theorem goSplit_two_iff (sep : Char) (cs : List Char) :
    (∃ a b t, goSplit sep cs = a :: b :: t) ↔ sep ∈ cs := by
  induction cs with
  | nil =>
    constructor
    · rintro ⟨a, b, t, h⟩
      simp [goSplit] at h
    · intro h
      simp at h
  | cons c rest ih =>
    obtain ⟨h0, t0, hh⟩ := List.exists_cons_of_ne_nil (goSplit_ne_nil sep rest)
    by_cases hc : c = sep
    · subst hc
      rw [goSplit_cons_sep, hh]
      exact iff_of_true ⟨[], h0, t0, rfl⟩ (List.mem_cons_self c rest)
    · rw [goSplit_cons_ne sep c rest hc h0 t0 hh]
      have hmem : sep ∈ c :: rest ↔ sep ∈ rest := by
        rw [List.mem_cons]
        exact or_iff_right fun h => hc h.symm
      rw [hmem, ← ih, hh]
      constructor
      · rintro ⟨a, b, t, habt⟩
        obtain ⟨-, ht⟩ := List.cons.inj habt
        subst ht
        exact ⟨h0, b, t, rfl⟩
      · rintro ⟨a, b, t, habt⟩
        obtain ⟨ha, ht⟩ := List.cons.inj habt
        subst ha
        subst ht
        exact ⟨c :: h0, b, t, rfl⟩

theorem setKey_of_not_mem {ε : Type} (dst : List (String × ε)) (k : String) (v : ε)
    (h : k ∉ dst.map Prod.fst) : setKey dst k v = dst ++ [(k, v)] := by
  induction dst with
  | nil => rfl
  | cons kv rest ih =>
    simp only [List.map_cons, List.mem_cons] at h
    push_neg at h
    simp only [setKey]
    rw [if_neg (fun he => h.1 he.symm), ih h.2]
    rfl

theorem mapsCopy_disjoint {ε : Type} (src : List (String × ε)) :
    ∀ dst : List (String × ε), (src.map Prod.fst).Nodup →
      (∀ k, k ∈ src.map Prod.fst → k ∉ dst.map Prod.fst) →
      mapsCopy dst src = dst ++ src := by
  induction src with
  | nil =>
    intro dst _ _
    simp [mapsCopy]
  | cons kv rest ih =>
    intro dst hnd hdisj
    simp only [List.map_cons, List.nodup_cons] at hnd
    have hk : kv.1 ∉ dst.map Prod.fst := hdisj kv.1 (by simp)
    have hstep : mapsCopy dst (kv :: rest) = mapsCopy (dst ++ [(kv.1, kv.2)]) rest := by
      simp only [mapsCopy, List.foldl_cons]
      rw [setKey_of_not_mem dst kv.1 kv.2 hk]
    have hdisj2 : ∀ k, k ∈ rest.map Prod.fst →
        k ∉ (dst ++ [(kv.1, kv.2)]).map Prod.fst := by
      intro k hkmem
      rw [List.map_append, List.mem_append]
      push_neg
      refine ⟨hdisj k ?_, ?_⟩
      · rw [List.map_cons]
        exact List.mem_cons_of_mem _ hkmem
      · simp only [List.map_cons, List.map_nil, List.mem_singleton]
        intro he
        exact hnd.1 (he ▸ hkmem)
    rw [hstep, ih (dst ++ [(kv.1, kv.2)]) hnd.2 hdisj2]
    simp

theorem mapsCopy_nil_left {ε : Type} (src : List (String × ε))
    (h : (src.map Prod.fst).Nodup) : mapsCopy [] src = src := by
  have := mapsCopy_disjoint src [] h (by simp)
  simpa using this

/-! ## Claim theorems -/

/-- C10: the name extraction `strings.Split(c.Names[0], "/")[1]` of RunOnce
is well defined exactly when the summary's Names list is nonempty and its
first element contains a '/'; the total embedding returns `none` (an index
panic in Go) exactly outside that precondition. -/
theorem containerName_welldefined_iff (names : List String) :
    (containerNameOf names).isSome = true ↔
      ∃ n rest, names = n :: rest ∧ '/' ∈ n.data := by
  cases names with
  | nil =>
    simp [containerNameOf]
  | cons n rest =>
    constructor
    · intro hs
      refine ⟨n, rest, rfl, ?_⟩
      rw [← goSplit_two_iff '/' n.data]
      cases hg : goSplit '/' n.data with
      | nil => exact absurd hg (goSplit_ne_nil '/' n.data)
      | cons a t1 =>
        cases t1 with
        | nil => simp [containerNameOf, hg] at hs
        | cons b t => exact ⟨a, b, t, rfl⟩
    · rintro ⟨n2, rest2, heq, hmem⟩
      obtain ⟨he1, -⟩ := List.cons.inj heq
      subst he1
      obtain ⟨a, b, t, hg⟩ := (goSplit_two_iff '/' n.data).mpr hmem
      simp [containerNameOf, hg]

/-- C7 (code_bug evidence): RunOnce's only per-container filter is the
orbitd.enable = "false" check; a container with no labels at all is
processed, so no require-label opt-in mode exists in the cycle loop (the
updater's Config carries no such flag). -/
theorem runOnce_filter_eval :
    runOnceProcesses [] = true ∧
      runOnceProcesses [("orbitd.enable", "true")] = true ∧
      runOnceProcesses [("orbitd.enable", "false")] = false := by
  decide

/-- C1: a replacement transaction that fails at Start(new) (container.Run
returns an error, with every step up to the rename succeeding) renames the
backup back and restarts it; if both succeed it ends RolledBack with the old
container running under its original name, and if either fails it ends Down
with no container running under any name. -/
theorem recreateTx_start_failure (name : String) (o : TxOracle)
    (h1 : o.fromIDOk = true) (h2 : o.inspectOk = true) (h3 : o.running = true)
    (h4 : o.stopOk = true) (h5 : o.renameOk = true) (h6 : o.runOk = false) :
    (o.renameBackOk = true → o.rollbackStartOk = true →
      recreateTx name o = (.rolledBack, ⟨some name, true, false⟩)) ∧
    (o.renameBackOk = false ∨ o.rollbackStartOk = false →
      (recreateTx name o).1 = .down ∧ (recreateTx name o).2.oldRunning = false ∧
        (recreateTx name o).2.newRunning = false) := by
  cases hrb : o.renameBackOk <;> cases hrs : o.rollbackStartOk <;>
    simp_all [recreateTx]

theorem recreateTx_start_failure_witness :
    recreateTx "db" ⟨true, true, true, true, true, true, false, true, true, true⟩ =
      (.rolledBack, ⟨some "db", true, false⟩) :=
  (recreateTx_start_failure "db"
    ⟨true, true, true, true, true, true, false, true, true, true⟩
    rfl rfl rfl rfl rfl rfl).1 rfl rfl

/-- C2: the replacement container is created under the original name with the
old container's inspected configuration copied verbatim except the image
field, the old host configuration verbatim, and (when container.Run starts
from an empty endpoint-settings map, as it does with no network option) the
old network endpoint settings verbatim. -/
theorem recreated_container_preserves_config {ε : Type} (ins : InspectResult ε)
    (imageName : String) (defaults : List (String × ε))
    (hd : defaults = []) (hnd : (ins.networks.map Prod.fst).Nodup) :
    (recreatedContainer ins imageName defaults).name = trimSlash ins.name ∧
    (recreatedContainer ins imageName defaults).config.image = imageName ∧
    (recreatedContainer ins imageName defaults).config.env = ins.config.env ∧
    (recreatedContainer ins imageName defaults).config.cmd = ins.config.cmd ∧
    (recreatedContainer ins imageName defaults).config.entrypoint = ins.config.entrypoint ∧
    (recreatedContainer ins imageName defaults).config.labels = ins.config.labels ∧
    (recreatedContainer ins imageName defaults).hostConfig = ins.hostConfig ∧
    (recreatedContainer ins imageName defaults).endpoints = ins.networks := by
  subst hd
  refine ⟨rfl, rfl, rfl, rfl, rfl, rfl, rfl, ?_⟩
  exact mapsCopy_nil_left ins.networks hnd

theorem parseImage_ne_empty {i : String} {pr : String × String}
    (h : parseImage i = some pr) : i ≠ "" := by
  intro he
  subst he
  simp [parseImage] at h

/-- When the semver stage hands back the current image unchanged whatever the
registry answers, updateContainer is exactly the digest pipeline (pull of the
unchanged reference, then digest comparison) on that image. -/
theorem updateContainer_eq_pullStep (cfgPolicy : String) (c : Summary) (o : UpdateOracle)
    (hs : "sha256:".data.isPrefixOf c.image.data = false)
    (ht : ∀ tags, findUpdateTarget c.image (getPolicy c.labels cfgPolicy) tags =
      .ok c.image)
    (hne : c.image ≠ "") :
    updateContainer cfgPolicy c o = pullStep c.image c o := by
  simp only [updateContainer, hs, Bool.false_eq_true, if_false]
  by_cases hpol : getPolicy c.labels cfgPolicy = PolicyDigest
  · simp [hpol]
  · simp only [ne_eq, hpol, not_false_eq_true, if_true, ht o.registryTags, hne, if_false]

/-- C9 (amended): a well-formed digest-pinned reference repo@sha256:<64 hex>
(one name.ParseReference accepts as a digest, where parseImage reports no
tag) is never semver-matched as long as it is not a bare untagged digest:
the cycle behaves exactly as the Digest policy on the unchanged reference,
and the registry tag listing is never consulted.  Bare sha256: references
are instead skipped outright (see the counterexample), and a malformed
digest reference is a parse error that skips the container under semver
policies. -/
theorem digest_reference_digest_behavior (cfgPolicy : String) (c : Summary)
    (o : UpdateOracle) (repo : String)
    (hp : parseImage c.image = some (repo, ""))
    (hs : "sha256:".data.isPrefixOf c.image.data = false) :
    updateContainer cfgPolicy c o = pullStep c.image c o ∧
    ∀ tags, updateContainer cfgPolicy c { o with registryTags := tags } =
      updateContainer cfgPolicy c o := by
  have hne := parseImage_ne_empty hp
  have hfu : ∀ (p : UpdatePolicy) (tags : Option (List String)),
      findUpdateTarget c.image p tags = .ok c.image := by
    intro p tags
    unfold findUpdateTarget
    split
    · rfl
    · rw [hp]
      simp
  have hmain : ∀ o2 : UpdateOracle, updateContainer cfgPolicy c o2 = pullStep c.image c o2 :=
    fun o2 => updateContainer_eq_pullStep cfgPolicy c o2 hs (fun tags => hfu _ tags) hne
  refine ⟨hmain o, fun tags => ?_⟩
  rw [hmain o, hmain { o with registryTags := tags }]
  rfl

/-- C9 counterexample: a container running a bare untagged digest (image
string starting sha256:) is skipped outright — no pull, no digest
comparison — while Digest policy behaviour on the same reference would pull
and, with no prior digest, replace the container. -/
theorem bare_digest_counterexample :
    updateContainer "major" ⟨"cid", "sha256:abc", "img", [], ["/db"]⟩
        ⟨some ["9.9.9"], none, true, false, some "d"⟩ = .skippedUntaggedDigest ∧
      pullStep "sha256:abc" ⟨"cid", "sha256:abc", "img", [], ["/db"]⟩
        ⟨some ["9.9.9"], none, true, false, some "d"⟩ = .recreate "sha256:abc" := by
  exact ⟨rfl, rfl⟩

theorem digest_reference_witness :
    updateContainer "minor"
        ⟨"cid",
          "repo@sha256:0123456789abcdef0123456789abcdef0123456789abcdef0123456789abcdef",
          "img", [], ["/db"]⟩
        ⟨some ["9.9.9"], some "d", true, false, some "d"⟩ =
      pullStep
        "repo@sha256:0123456789abcdef0123456789abcdef0123456789abcdef0123456789abcdef"
        ⟨"cid",
          "repo@sha256:0123456789abcdef0123456789abcdef0123456789abcdef0123456789abcdef",
          "img", [], ["/db"]⟩
        ⟨some ["9.9.9"], some "d", true, false, some "d"⟩ :=
  (digest_reference_digest_behavior "minor"
    ⟨"cid",
      "repo@sha256:0123456789abcdef0123456789abcdef0123456789abcdef0123456789abcdef",
      "img", [], ["/db"]⟩
    ⟨some ["9.9.9"], some "d", true, false, some "d"⟩ "repo" (by decide) (by decide)).1

/-- C6 (amended): a container whose orbitd.policy label holds an invalid
value is resolved with Digest semantics — re-pull of the unchanged reference
followed by digest comparison — not with the configured global policy:
getPolicy returns the label string verbatim and FindUpdateTarget hands every
invalid policy the current image unchanged. -/
theorem invalid_label_digest_behavior (cfgPolicy : String) (c : Summary)
    (o : UpdateOracle) (p : UpdatePolicy)
    (hl : lookupLabel c.labels "orbitd.policy" = some p)
    (hv : UpdatePolicy.IsValid p = false)
    (hs : "sha256:".data.isPrefixOf c.image.data = false)
    (hne : c.image ≠ "") :
    updateContainer cfgPolicy c o = pullStep c.image c o := by
  have hgp : getPolicy c.labels cfgPolicy = p := by simp [getPolicy, hl]
  apply updateContainer_eq_pullStep cfgPolicy c o hs _ hne
  intro tags
  rw [hgp]
  unfold findUpdateTarget
  simp [hv]

/-- C6 counterexample: with global policy patch and registry tag 1.2.4
available over current 1.2.3, a container labelled orbitd.policy=bogus is
left on its digest-compared current image (up-to-date no-op) while the same
container resolved with the global patch policy is replaced with
repo:1.2.4 — so an invalid label does not fall back to the global policy. -/
theorem invalid_label_counterexample :
    updateContainer "patch"
        ⟨"cid", "repo:1.2.3", "img", [("orbitd.policy", "bogus")], ["/app"]⟩
        ⟨some ["1.2.4"], some "d", true, false, some "d"⟩ = .skippedUpToDate ∧
      updateContainer "patch" ⟨"cid", "repo:1.2.3", "img", [], ["/app"]⟩
        ⟨some ["1.2.4"], some "d", true, false, some "d"⟩ = .recreate "repo:1.2.4" := by
  exact ⟨rfl, rfl⟩

theorem invalid_label_witness :
    updateContainer "patch"
        ⟨"cid", "repo:1.2.3", "img", [("orbitd.policy", "bogus")], ["/app"]⟩
        ⟨some ["1.2.4"], some "d", true, false, some "d"⟩ =
      pullStep "repo:1.2.3"
        ⟨"cid", "repo:1.2.3", "img", [("orbitd.policy", "bogus")], ["/app"]⟩
        ⟨some ["1.2.4"], some "d", true, false, some "d"⟩ :=
  invalid_label_digest_behavior "patch"
    ⟨"cid", "repo:1.2.3", "img", [("orbitd.policy", "bogus")], ["/app"]⟩
    ⟨some ["1.2.4"], some "d", true, false, some "d"⟩ "bogus"
    (by decide) (by decide) (by decide) (by decide)

/-- C5 (amended): under a valid non-digest (semver) policy with a
semver-parsable tag and a successful registry listing, a resolver miss
(findBestVersion returns the empty sentinel) makes updateContainer return
before the image pull: the container is skipped for the cycle and the
current image is not re-pulled. -/
theorem semver_no_update_skips_cycle (cfgPolicy : String) (c : Summary)
    (o : UpdateOracle) (repo tag : String) (cur : SemVer) (tags : List String)
    (hs : "sha256:".data.isPrefixOf c.image.data = false)
    (hpd : getPolicy c.labels cfgPolicy ≠ PolicyDigest)
    (hp : parseImage c.image = some (repo, tag))
    (htag : tag ≠ "")
    (hpv : UpdatePolicy.IsValid (getPolicy c.labels cfgPolicy) = true)
    (hsem : parseSemver tag = some cur)
    (hreg : o.registryTags = some tags)
    (hbest : findBestVersion repo tags cur (getPolicy c.labels cfgPolicy) = "") :
    updateContainer cfgPolicy c o = .skippedNoUpdate := by
  have hbeq : (getPolicy c.labels cfgPolicy == PolicyDigest) = false := by
    simpa using hpd
  simp only [updateContainer, hs, Bool.false_eq_true, if_false, ne_eq, hpd,
    not_false_eq_true, if_true]
  unfold findUpdateTarget
  simp only [hpv, hbeq, Bool.not_true, Bool.false_or, Bool.false_eq_true, if_false,
    hp, htag, ne_eq, hsem, hreg, hbest, if_true]

/-- C5 counterexample: policy patch on repo:1.2.3 with the registry offering
only 1.2.3 — the resolver finds nothing newer and updateContainer ends
skippedNoUpdate, a return before the image pull; the claimed behaviour
(re-pull the unchanged image, then digest comparison) would instead have
ended as the up-to-date digest no-op. -/
theorem no_update_skips_pull_counterexample :
    updateContainer "patch" ⟨"cid", "repo:1.2.3", "img", [], ["/app"]⟩
        ⟨some ["1.2.3"], some "d", true, false, some "d"⟩ = .skippedNoUpdate ∧
      pullStep "repo:1.2.3" ⟨"cid", "repo:1.2.3", "img", [], ["/app"]⟩
        ⟨some ["1.2.3"], some "d", true, false, some "d"⟩ = .skippedUpToDate := by
  exact ⟨rfl, rfl⟩

theorem semver_no_update_witness :
    updateContainer "patch" ⟨"cid", "repo:1.2.3", "img", [], ["/app"]⟩
        ⟨some ["1.2.3"], some "d", true, false, some "d"⟩ = .skippedNoUpdate :=
  semver_no_update_skips_cycle "patch" ⟨"cid", "repo:1.2.3", "img", [], ["/app"]⟩
    ⟨some ["1.2.3"], some "d", true, false, some "d"⟩ "repo" "1.2.3" ⟨1, 2, 3, "", ""⟩
    ["1.2.3"] (by decide) (by decide) (by decide) (by decide) (by decide) (by decide)
    (by decide) (by decide)

/-- C4 counterexample: candidate 0.3.0 has the same major component as
current 0.2.3 and is strictly greater, yet the Minor constraint rejects it
(the caret on a 0.x version pins the minor, not the major). -/
theorem minor_zero_major_counterexample :
    (⟨0, 3, 0, "", ""⟩ : SemVer).major = (⟨0, 2, 3, "", ""⟩ : SemVer).major ∧
      semverCompare ⟨0, 3, 0, "", ""⟩ ⟨0, 2, 3, "", ""⟩ = .gt ∧
      checkConstraint ⟨0, 2, 3, "", ""⟩ PolicyMinor ⟨0, 3, 0, "", ""⟩ = false := by
  exact ⟨rfl, rfl, rfl⟩

/-- C4 (amended): under policy Minor a candidate satisfies the built
constraint iff it passes the prerelease gate (no prerelease, or the current
version has one), is strictly greater than the current version, and lies in
the caret range of the current version — same major only when the current
major is positive, same minor (and major 0) when the current version is
0.m.p with m > 0, and same patch when it is 0.0.p. -/
theorem minor_constraint_characterization (cur v : SemVer) :
    checkConstraint cur PolicyMinor v = true ↔
      ((v.pre = "" ∨ cur.pre ≠ "") ∧ semverCompare v cur = .gt ∧ caretRange cur v) := by
  have h1 : checkConstraint cur PolicyMinor v = (cCaret cur v && cGreaterThan cur v) := rfl
  rw [h1, Bool.and_eq_true]
  unfold cCaret cGreaterThan caretRange
  rcases hcmp : semverCompare v cur with _ | _ | _ <;>
    (try simp only [hcmp]) <;>
    by_cases hvp : v.pre = "" <;>
    by_cases hcp : cur.pre = "" <;>
    split_ifs <;>
    (try simp_all [show (Ordering.gt == Ordering.lt) = false from rfl,
      show (Ordering.eq == Ordering.lt) = false from rfl,
      show (Ordering.lt == Ordering.gt) = false from rfl,
      show (Ordering.eq == Ordering.gt) = false from rfl,
      show (Ordering.lt == Ordering.lt) = true from rfl,
      show (Ordering.gt == Ordering.gt) = true from rfl]) <;>
    (try tauto)

theorem pullStep_recreate_inv (t : String) (c : Summary) (o : UpdateOracle) (t0 : String)
    (h : pullStep t c o = .recreate t0) :
    t0 = t ∧ ¬(t = c.image ∧ o.digestBefore.getD "" ≠ "" ∧
      o.digestAfter = some (o.digestBefore.getD "")) := by
  unfold pullStep at h
  split at h
  · cases h
  · split at h
    · cases h
    · split at h
      · cases h
      · rename_i newDigest hafter
        split at h
        · cases h
        · rename_i hcond
          obtain rfl : t0 = t := by cases h; rfl
          refine ⟨rfl, ?_⟩
          rintro ⟨he, hne, hsome⟩
          apply hcond
          refine ⟨he, hne, ?_⟩
          rw [hafter] at hsome
          exact (Option.some.inj hsome).symm

/-- C8: when the pulled target equals the container's current image and the
before digest is present and unchanged by the pull, updateContainer never
reaches recreateContainer (no replacement transaction, engine state
untouched); and an absent before digest (the discarded getImageDigest error,
surfacing as "") always counts as changed, so the post-pull path replaces
the container. -/
theorem digest_comparison_gate (cfgPolicy : String) (c : Summary) (o : UpdateOracle) :
    (∀ t, updateContainer cfgPolicy c o = .recreate t → t = c.image →
      ¬(o.digestBefore.getD "" ≠ "" ∧ o.digestAfter = some (o.digestBefore.getD ""))) ∧
    (∀ t d, o.digestBefore.getD "" = "" → o.pullOk = true → o.isSelf = false →
      o.digestAfter = some d → pullStep t c o = .recreate t) := by
  constructor
  · intro t hrun heq
    rintro ⟨hne, hsome⟩
    unfold updateContainer at hrun
    split at hrun
    · cases hrun
    · split at hrun
      · split at hrun
        · cases hrun
        · split at hrun
          · cases hrun
          · obtain ⟨rfl, hninv⟩ := pullStep_recreate_inv _ c o t hrun
            exact hninv ⟨heq, hne, hsome⟩
      · obtain ⟨rfl, hninv⟩ := pullStep_recreate_inv _ c o t hrun
        exact hninv ⟨heq, hne, hsome⟩
  · intro t d h1 h2 h3 h4
    simp [pullStep, h1, h2, h3, h4]

theorem recreated_container_witness :
    (recreatedContainer
      (⟨"/db", ⟨"pg:15", ["A=1"], ["run"], ["sh"], [("l", "1")]⟩,
        ⟨["/v:/v"], [], "always", ["NET_ADMIN"], []⟩, [("bridge", "es1")]⟩ :
        InspectResult String)
      "pg:16" []).endpoints = [("bridge", "es1")] :=
  (recreated_container_preserves_config
    (⟨"/db", ⟨"pg:15", ["A=1"], ["run"], ["sh"], [("l", "1")]⟩,
      ⟨["/v:/v"], [], "always", ["NET_ADMIN"], []⟩, [("bridge", "es1")]⟩ :
      InspectResult String)
    "pg:16" [] rfl (by simp)).2.2.2.2.2.2.2

/-! ### Order lemmas for the Masterminds comparison

The resolver's maximality claim needs the strict "greater than" of
Version.Compare to be transitive.  (The comparison is not antisymmetric on
numeric prerelease identifiers with leading zeros — "01" and "1" are
mutually less — but its strict greater-than is still transitive.) -/

theorem char_toNat_inj {a b : Char} (h : a.toNat = b.toNat) : a = b :=
  Char.ofNat_toNat a ▸ Char.ofNat_toNat b ▸ congrArg Char.ofNat h

theorem charsCmp_eq_iff (s : List Char) : ∀ o, charsCmp s o = .eq ↔ s = o := by
  induction s with
  | nil => intro o; cases o <;> simp [charsCmp]
  | cons a as ih =>
    intro o
    cases o with
    | nil => simp [charsCmp]
    | cons b bs =>
      simp only [charsCmp, List.cons.injEq]
      split_ifs with h1 h2
      · constructor
        · intro h; cases h
        · rintro ⟨rfl, -⟩; omega
      · constructor
        · intro h; cases h
        · rintro ⟨rfl, -⟩; omega
      · have hab : a = b := char_toNat_inj (by omega)
        simp [hab, ih bs]

theorem charsCmp_self (s : List Char) : charsCmp s s = .eq :=
  (charsCmp_eq_iff s s).mpr rfl

theorem charsCmp_gt_trans (a : List Char) :
    ∀ b c, charsCmp a b = .gt → charsCmp b c = .gt → charsCmp a c = .gt := by
  induction a with
  | nil =>
    intro b c h1 _
    exfalso
    cases b <;> simp [charsCmp] at h1
  | cons x xs ih =>
    intro b c h1 h2
    cases b with
    | nil => cases c <;> simp [charsCmp] at h2
    | cons y ys =>
      cases c with
      | nil => simp [charsCmp]
      | cons z zs =>
        simp only [charsCmp] at h1 h2 ⊢
        split_ifs at h1 h2 ⊢ <;>
          first
            | rfl
            | exact absurd h1 (by decide)
            | exact absurd h2 (by decide)
            | exact ih ys zs h1 h2
            | (exfalso; omega)

theorem partCmp_eq_iff (s o : List Char) : partCmp s o = .eq ↔ s = o := by
  constructor
  · intro h
    by_contra hne
    unfold partCmp at h
    rw [if_neg hne] at h
    split_ifs at h <;> try cases h
    all_goals
      rcases ps : parseGoInt64 s with _ | si <;> rcases po : parseGoInt64 o with _ | oi <;>
        rw [ps, po] at h <;> dsimp only at h <;> (try split_ifs at h) <;> cases h
  · intro h
    subst h
    unfold partCmp
    rw [if_pos rfl]

theorem partCmp_self (s : List Char) : partCmp s s = .eq :=
  (partCmp_eq_iff s s).mpr rfl

theorem partCmp_gt_trans (a b c : List Char) (h1 : partCmp a b = .gt)
    (h2 : partCmp b c = .gt) : partCmp a c = .gt := by
  by_cases hab : a = b
  · subst hab
    rw [partCmp_self a] at h1
    cases h1
  by_cases hbc : b = c
  · subst hbc
    exact h1
  unfold partCmp at h1 h2
  rw [if_neg hab] at h1
  rw [if_neg hbc] at h2
  by_cases ha : a = []
  · rw [if_pos ha] at h1; cases h1
  rw [if_neg ha] at h1
  by_cases hb : b = []
  · rw [if_pos hb] at h2; cases h2
  rw [if_neg hb] at h1
  rw [if_neg hb] at h2
  by_cases hc : c = []
  · -- conclusion: a nonempty, c empty, a ≠ c → gt
    unfold partCmp
    rw [if_neg (by rw [hc]; exact ha), if_neg ha, if_pos hc]
  rw [if_neg hc] at h2
  -- all of a, b, c nonempty and pairwise relevant; case on the numeric parses
  rcases pa : parseGoInt64 a with _ | ia <;> rcases pb : parseGoInt64 b with _ | ib <;>
    rw [pa, pb] at h1 <;> dsimp only at h1
  · -- a, b both non-numeric: charsCmp a b = .gt
    have hg1 : charsCmp a b = .gt := by
      by_cases hg : charsCmp a b = .gt
      · exact hg
      · rw [if_neg hg] at h1; cases h1
    rcases pc : parseGoInt64 c with _ | ic <;> rw [pb, pc] at h2 <;> dsimp only at h2
    · have hg2 : charsCmp b c = .gt := by
        by_cases hg : charsCmp b c = .gt
        · exact hg
        · rw [if_neg hg] at h2; cases h2
      have hg3 := charsCmp_gt_trans a b c hg1 hg2
      have hac : a ≠ c := by
        intro he
        subst he
        have := charsCmp_gt_trans b a b hg2 hg1
        rw [charsCmp_self b] at this
        cases this
      unfold partCmp
      rw [if_neg hac, if_neg ha, if_neg hc, pa, pc]
      dsimp only
      rw [if_pos hg3]
    · have hac : a ≠ c := by
        intro he
        rw [he, pc] at pa
        cases pa
      unfold partCmp
      rw [if_neg hac, if_neg ha, if_neg hc, pa, pc]
  · -- a non-numeric, b numeric
    rcases pc : parseGoInt64 c with _ | ic <;> rw [pb, pc] at h2 <;> dsimp only at h2
    · cases h2
    · have hac : a ≠ c := by
        intro he
        rw [he, pc] at pa
        cases pa
      unfold partCmp
      rw [if_neg hac, if_neg ha, if_neg hc, pa, pc]
  · -- a numeric, b non-numeric: h1 is .lt
    cases h1
  · -- a, b numeric
    have hba : ib < ia := by
      by_cases hg : ib < ia
      · exact hg
      · rw [if_neg hg] at h1; cases h1
    rcases pc : parseGoInt64 c with _ | ic <;> rw [pb, pc] at h2 <;> dsimp only at h2
    · cases h2
    · have hcb : ic < ib := by
        by_cases hg : ic < ib
        · exact hg
        · rw [if_neg hg] at h2; cases h2
      have hac : a ≠ c := by
        intro he
        rw [he, pc] at pa
        cases pa
        omega
      unfold partCmp
      rw [if_neg hac, if_neg ha, if_neg hc, pa, pc]
      dsimp only
      rw [if_pos (by omega)]

theorem partCmp_nil_left_ne_gt (o : List Char) : partCmp [] o ≠ .gt := by
  unfold partCmp
  split_ifs <;> simp_all

theorem partsCmpNil_ne_gt (y : List (List Char)) : partsCmpNil y ≠ .gt := by
  induction y with
  | nil => simp [partsCmpNil]
  | cons o os ih =>
    simp only [partsCmpNil]
    rcases ho : partCmp [] o with _ | _ | _
    · simp
    · simpa using ih
    · exact absurd ho (partCmp_nil_left_ne_gt o)

theorem partsCmp_nil_left_ne_gt (y : List (List Char)) : partsCmp [] y ≠ .gt :=
  partsCmpNil_ne_gt y

theorem partsCmp_expand (x y : List (List Char)) (hne : ¬(x = [] ∧ y = [])) :
    partsCmp x y =
      match partCmp (x.headD []) (y.headD []) with
      | .eq => partsCmp x.tail y.tail
      | r => r := by
  match x, y with
  | [], [] => exact absurd ⟨rfl, rfl⟩ hne
  | [], o :: os => rfl
  | s :: ss, [] => rfl
  | s :: ss, o :: os => rfl

theorem partsCmp_self (l : List (List Char)) : partsCmp l l = .eq := by
  induction l with
  | nil => rfl
  | cons s ss ih => simp only [partsCmp, partCmp_self, ih]

theorem partsCmp_gt_trans (n : Nat) : ∀ x y z : List (List Char),
    x.length + y.length + z.length ≤ n →
    partsCmp x y = .gt → partsCmp y z = .gt → partsCmp x z = .gt := by
  induction n with
  | zero =>
    intro x y z hlen h1 _
    have hx : x = [] := List.length_eq_zero.mp (by omega)
    subst hx
    exact absurd h1 (partsCmp_nil_left_ne_gt y)
  | succ n ih =>
    intro x y z hlen h1 h2
    rcases x with _ | ⟨a, xs⟩
    · exact absurd h1 (partsCmp_nil_left_ne_gt y)
    rcases y with _ | ⟨b, ys⟩
    · exact absurd h2 (partsCmp_nil_left_ne_gt z)
    rw [partsCmp_expand (a :: xs) (b :: ys) (by simp)] at h1
    rw [partsCmp_expand (b :: ys) z (by simp)] at h2
    rw [partsCmp_expand (a :: xs) z (by simp)]
    simp only [List.headD_cons, List.tail_cons] at h1 h2 ⊢
    have hzlen : z.tail.length ≤ z.length := by
      rcases z with _ | ⟨c, zs⟩ <;> simp
    rcases hab : partCmp a b with _ | _ | _ <;> rw [hab] at h1 <;> dsimp only at h1
    · cases h1
    · -- heads equal
      have hab' : a = b := (partCmp_eq_iff a b).mp hab
      subst hab'
      rcases hbc : partCmp a (z.headD []) with _ | _ | _ <;>
        rw [hbc] at h2 <;> dsimp only at h2
      · cases h2
      · dsimp only
        exact ih xs ys z.tail (by simp at hlen; omega) h1 h2
    · rcases hbc : partCmp b (z.headD []) with _ | _ | _ <;>
        rw [hbc] at h2 <;> dsimp only at h2
      · cases h2
      · have hbc' : b = z.headD [] := (partCmp_eq_iff _ _).mp hbc
        rw [← hbc', hab]
      · rw [partCmp_gt_trans a b (z.headD []) hab hbc]

theorem preCmp_self (p : String) : preCmp p p = .eq := by
  unfold preCmp
  split_ifs with h1 h2
  · rfl
  · simp_all
  · exact partsCmp_self _

theorem preCmp_gt_trans (p q r : String) (h1 : preCmp p q = .gt)
    (h2 : preCmp q r = .gt) : preCmp p r = .gt := by
  unfold preCmp at h1 h2 ⊢
  by_cases hp : p = "" <;> by_cases hq : q = "" <;> by_cases hr : r = "" <;>
    simp_all
  exact partsCmp_gt_trans
    ((goSplit '.' p.data).length + (goSplit '.' q.data).length +
      (goSplit '.' r.data).length) _ _ _ le_rfl h1 h2

theorem segCmp_eq_iff (a b : Nat) : segCmp a b = .eq ↔ a = b := by
  unfold segCmp
  split_ifs <;> simp <;> omega

theorem segCmp_gt_iff (a b : Nat) : segCmp a b = .gt ↔ b < a := by
  unfold segCmp
  split_ifs <;> simp <;> omega

theorem segCmp_self (a : Nat) : segCmp a a = .eq := by
  simp [segCmp_eq_iff]

theorem semverCompare_self (v : SemVer) : semverCompare v v = .eq := by
  unfold semverCompare
  rw [segCmp_self, segCmp_self, segCmp_self]
  exact preCmp_self v.pre

theorem ordThen_gt_trans_nat (x1 y1 z1 : Nat) (k1 k2 k3 : Ordering)
    (hk : k1 = .gt → k2 = .gt → k3 = .gt)
    (h1 : (match segCmp x1 y1 with | .eq => k1 | r => r) = .gt)
    (h2 : (match segCmp y1 z1 with | .eq => k2 | r => r) = .gt) :
    (match segCmp x1 z1 with | .eq => k3 | r => r) = .gt := by
  rcases e1 : segCmp x1 y1 with _ | _ | _ <;> rw [e1] at h1 <;> dsimp only at h1
  · cases h1
  · have ex : x1 = y1 := (segCmp_eq_iff _ _).mp e1
    rcases e2 : segCmp y1 z1 with _ | _ | _ <;> rw [e2] at h2 <;> dsimp only at h2
    · cases h2
    · have ey : y1 = z1 := (segCmp_eq_iff _ _).mp e2
      rw [(segCmp_eq_iff x1 z1).mpr (by omega)]
      exact hk h1 h2
    · have ey : z1 < y1 := (segCmp_gt_iff _ _).mp e2
      rw [(segCmp_gt_iff x1 z1).mpr (by omega)]
  · have ex : y1 < x1 := (segCmp_gt_iff _ _).mp e1
    rcases e2 : segCmp y1 z1 with _ | _ | _ <;> rw [e2] at h2 <;> dsimp only at h2
    · cases h2
    · have ey : y1 = z1 := (segCmp_eq_iff _ _).mp e2
      rw [(segCmp_gt_iff x1 z1).mpr (by omega)]
    · have ey : z1 < y1 := (segCmp_gt_iff _ _).mp e2
      rw [(segCmp_gt_iff x1 z1).mpr (by omega)]

theorem semverCompare_gt_trans (a b c : SemVer) (h1 : semverCompare a b = .gt)
    (h2 : semverCompare b c = .gt) : semverCompare a c = .gt := by
  unfold semverCompare at h1 h2 ⊢
  refine ordThen_gt_trans_nat a.major b.major c.major _ _ _ ?_ h1 h2
  intro g1 g2
  refine ordThen_gt_trans_nat a.minor b.minor c.minor _ _ _ ?_ g1 g2
  intro g1' g2'
  refine ordThen_gt_trans_nat a.patch b.patch c.patch _ _ _ ?_ g1' g2'
  exact preCmp_gt_trans a.pre b.pre c.pre

/-! ### The findBestVersion loop invariant -/

theorem ordering_beq_gt_iff (o : Ordering) : (o == Ordering.gt) = true ↔ o = .gt := by
  cases o <;> decide

theorem bestStep_none_iff (cur : SemVer) (pol : UpdatePolicy)
    (acc : Option SemVer × String) (t : String) :
    (bestStep cur pol acc t).1 = none ↔
      acc.1 = none ∧ ∀ v, parseSemver t = some v → checkConstraint cur pol v = false := by
  unfold bestStep
  rcases hv : parseSemver t with _ | v
  · simp
  · dsimp only
    by_cases hc : checkConstraint cur pol v = true
    · rw [if_neg (by simp [hc])]
      rcases hacc : acc.1 with _ | best
      · simp [hc]
      · dsimp only
        split_ifs <;> simp [hacc]
    · rw [if_pos (by simp [hc])]
      have hc' : checkConstraint cur pol v = false := by simpa using hc
      simp only [true_and, Option.some.injEq]
      constructor
      · intro h
        refine ⟨h, ?_⟩
        rintro v2 rfl
        exact hc'
      · rintro ⟨h, -⟩
        exact h

theorem foldl_bestStep_none_iff (cur : SemVer) (pol : UpdatePolicy) (tags : List String) :
    ∀ acc : Option SemVer × String,
      (tags.foldl (bestStep cur pol) acc).1 = none ↔
        acc.1 = none ∧ ∀ t ∈ tags, ∀ v, parseSemver t = some v →
          checkConstraint cur pol v = false := by
  induction tags with
  | nil =>
    intro acc
    simp
  | cons t ts ih =>
    intro acc
    rw [List.foldl_cons, ih (bestStep cur pol acc t), bestStep_none_iff]
    simp only [List.forall_mem_cons]
    tauto

theorem bestStep_invariant_step (cur : SemVer) (pol : UpdatePolicy)
    (seen : List String) (acc : Option SemVer × String) (t : String)
    (hnone : acc.1 = none → ∀ t2 ∈ seen, ∀ v, parseSemver t2 = some v →
      checkConstraint cur pol v = false)
    (hsome : ∀ b, acc.1 = some b → parseSemver acc.2 = some b ∧
      checkConstraint cur pol b = true ∧ acc.2 ∈ seen ∧
      ∀ t2 ∈ seen, ∀ v, parseSemver t2 = some v →
        checkConstraint cur pol v = true → semverCompare v b ≠ .gt) :
    ((bestStep cur pol acc t).1 = none → ∀ t2 ∈ seen ++ [t], ∀ v,
      parseSemver t2 = some v → checkConstraint cur pol v = false) ∧
    (∀ b, (bestStep cur pol acc t).1 = some b →
      parseSemver (bestStep cur pol acc t).2 = some b ∧
      checkConstraint cur pol b = true ∧ (bestStep cur pol acc t).2 ∈ seen ++ [t] ∧
      ∀ t2 ∈ seen ++ [t], ∀ v, parseSemver t2 = some v →
        checkConstraint cur pol v = true → semverCompare v b ≠ .gt) := by
  have hmem : ∀ t2 : String, t2 ∈ seen ++ [t] ↔ t2 ∈ seen ∨ t2 = t := by
    intro t2
    simp [List.mem_append]
  unfold bestStep
  rcases hv : parseSemver t with _ | v
  · constructor
    · intro hn t2 ht2 v2 hpv2
      rcases (hmem t2).mp ht2 with h | rfl
      · exact hnone hn t2 h v2 hpv2
      · rw [hv] at hpv2
        cases hpv2
    · intro b hb
      obtain ⟨hp, hcb, hm, hmax⟩ := hsome b hb
      refine ⟨hp, hcb, (hmem _).mpr (Or.inl hm), ?_⟩
      intro t2 ht2 v2 hpv2 hcv2
      rcases (hmem t2).mp ht2 with h | rfl
      · exact hmax t2 h v2 hpv2 hcv2
      · rw [hv] at hpv2
        cases hpv2
  · dsimp only
    by_cases hc : checkConstraint cur pol v = true
    · rw [if_neg (by simp [hc])]
      rcases hacc : acc.1 with _ | best
      · dsimp only
        constructor
        · intro hn
          simp at hn
        · intro b hb
          have hvb : v = b := Option.some.inj (by simpa using hb)
          subst hvb
          refine ⟨hv, hc, (hmem _).mpr (Or.inr rfl), ?_⟩
          intro t2 ht2 v2 hpv2 hcv2
          rcases (hmem t2).mp ht2 with h | rfl
          · exact absurd hcv2 (by simp [hnone hacc t2 h v2 hpv2])
          · rw [hv] at hpv2
            have h2v : v = v2 := Option.some.inj hpv2
            rw [← h2v, semverCompare_self]
            simp
      · dsimp only
        by_cases hgt : (semverCompare v best == Ordering.gt) = true
        · rw [if_pos hgt]
          have hgt' : semverCompare v best = .gt := (ordering_beq_gt_iff _).mp hgt
          obtain ⟨hpb, hcb, hmb, hmaxb⟩ := hsome best hacc
          constructor
          · intro hn
            simp at hn
          · intro b hb
            have hvb : v = b := Option.some.inj (by simpa using hb)
            subst hvb
            refine ⟨hv, hc, (hmem _).mpr (Or.inr rfl), ?_⟩
            intro t2 ht2 v2 hpv2 hcv2
            rcases (hmem t2).mp ht2 with h | rfl
            · intro hgt2
              exact hmaxb t2 h v2 hpv2 hcv2 (semverCompare_gt_trans v2 v best hgt2 hgt')
            · rw [hv] at hpv2
              have h2v : v = v2 := Option.some.inj hpv2
              rw [← h2v, semverCompare_self]
              simp
        · rw [if_neg hgt]
          have hgt' : semverCompare v best ≠ .gt :=
            fun h => hgt ((ordering_beq_gt_iff _).mpr h)
          constructor
          · intro hn
            rw [hacc] at hn
            cases hn
          · intro b hb
            rw [hacc] at hb
            obtain rfl : best = b := Option.some.inj hb
            obtain ⟨hpb, hcb, hmb, hmaxb⟩ := hsome best hacc
            refine ⟨hpb, hcb, (hmem _).mpr (Or.inl hmb), ?_⟩
            intro t2 ht2 v2 hpv2 hcv2
            rcases (hmem t2).mp ht2 with h | rfl
            · exact hmaxb t2 h v2 hpv2 hcv2
            · rw [hv] at hpv2
              obtain rfl : v = v2 := Option.some.inj hpv2
              exact hgt'
    · rw [if_pos (by simp [hc])]
      have hc' : checkConstraint cur pol v = false := by simpa using hc
      constructor
      · intro hn t2 ht2 v2 hpv2
        rcases (hmem t2).mp ht2 with h | rfl
        · exact hnone hn t2 h v2 hpv2
        · rw [hv] at hpv2
          obtain rfl : v = v2 := Option.some.inj hpv2
          exact hc'
      · intro b hb
        obtain ⟨hp, hcb, hm, hmax⟩ := hsome b hb
        refine ⟨hp, hcb, (hmem _).mpr (Or.inl hm), ?_⟩
        intro t2 ht2 v2 hpv2 hcv2
        rcases (hmem t2).mp ht2 with h | rfl
        · exact hmax t2 h v2 hpv2 hcv2
        · rw [hv] at hpv2
          obtain rfl : v = v2 := Option.some.inj hpv2
          exact absurd hcv2 (by simp [hc'])

theorem foldl_bestStep_invariant (cur : SemVer) (pol : UpdatePolicy) (ts : List String) :
    ∀ (seen : List String) (acc : Option SemVer × String),
      (acc.1 = none → ∀ t2 ∈ seen, ∀ v, parseSemver t2 = some v →
        checkConstraint cur pol v = false) →
      (∀ b, acc.1 = some b → parseSemver acc.2 = some b ∧
        checkConstraint cur pol b = true ∧ acc.2 ∈ seen ∧
        ∀ t2 ∈ seen, ∀ v, parseSemver t2 = some v →
          checkConstraint cur pol v = true → semverCompare v b ≠ .gt) →
      ∀ b, (ts.foldl (bestStep cur pol) acc).1 = some b →
        parseSemver (ts.foldl (bestStep cur pol) acc).2 = some b ∧
        checkConstraint cur pol b = true ∧
        (ts.foldl (bestStep cur pol) acc).2 ∈ seen ++ ts ∧
        ∀ t2 ∈ seen ++ ts, ∀ v, parseSemver t2 = some v →
          checkConstraint cur pol v = true → semverCompare v b ≠ .gt := by
  induction ts with
  | nil =>
    intro seen acc hnone hsome b hb
    simp only [List.foldl_nil] at hb ⊢
    obtain ⟨hp, hcb, hm, hmax⟩ := hsome b hb
    refine ⟨hp, hcb, by simpa using hm, ?_⟩
    intro t2 ht2
    exact hmax t2 (by simpa using ht2)
  | cons t ts ih =>
    intro seen acc hnone hsome b hb
    rw [List.foldl_cons] at hb
    obtain ⟨hstep1, hstep2⟩ := bestStep_invariant_step cur pol seen acc t hnone hsome
    have hres := ih (seen ++ [t]) (bestStep cur pol acc t) hstep1 hstep2 b hb
    rw [List.foldl_cons]
    have happ : seen ++ [t] ++ ts = seen ++ t :: ts := by simp
    rw [happ] at hres
    exact hres

/-- C3: findBestVersion excludes every tag that does not parse as a semantic
version, returns the empty sentinel — the resolver's "absent", reported as a
normal outcome and not an error — exactly when no parsing candidate
satisfies the policy constraint, and otherwise returns repository:tag for a
satisfying candidate tag that is maximal: no satisfying candidate compares
strictly greater under the Masterminds semantic-version ordering. -/
theorem findBestVersion_max_spec (repo : String) (tags : List String)
    (current : SemVer) (policy : UpdatePolicy) :
    (findBestVersion repo tags current policy = "" ↔
      ∀ t ∈ tags, ∀ v, parseSemver t = some v →
        checkConstraint current policy v = false) ∧
    (∀ r, findBestVersion repo tags current policy = r → r ≠ "" →
      ∃ t v, t ∈ tags ∧ parseSemver t = some v ∧
        checkConstraint current policy v = true ∧ r = repo ++ ":" ++ t ∧
        ∀ t2 ∈ tags, ∀ v2, parseSemver t2 = some v2 →
          checkConstraint current policy v2 = true → semverCompare v2 v ≠ .gt) := by
  have hinv := foldl_bestStep_invariant current policy tags [] (none, "")
    (by intro _ t2 ht2; simp at ht2)
    (by intro b2 hb2; simp at hb2)
  have hniff := foldl_bestStep_none_iff current policy tags (none, "")
  constructor
  · unfold findBestVersion
    rcases hf : tags.foldl (bestStep current policy) (none, "") with ⟨o, s⟩
    rcases o with _ | b
    · rw [hf] at hniff
      simp only [true_and] at hniff
      exact iff_of_true rfl (hniff.mp trivial)
    · rw [hf] at hinv
      obtain ⟨hp, hcb, hm, -⟩ := hinv b rfl
      simp only [List.nil_append] at hm
      refine iff_of_false ?_ ?_
      · intro h
        have := congrArg String.data h
        simp at this
      · intro hall
        exact absurd hcb (by simp [hall s hm b hp])
  · intro r hr hrne
    unfold findBestVersion at hr
    rcases hf : tags.foldl (bestStep current policy) (none, "") with ⟨o, s⟩
    rw [hf] at hr
    rcases o with _ | b
    · exact absurd hr.symm hrne
    · rw [hf] at hinv
      obtain ⟨hp, hcb, hm, hmax⟩ := hinv b rfl
      simp only [List.nil_append] at hm hmax
      exact ⟨s, b, hm, hp, hcb, hr.symm, hmax⟩

end Orbitd
